import Mathlib

/-!
Verification development for the FTPP storage layer (`server/storage.ts`,
`server/db.ts`): a salary/expense data-access layer with a persistent
(Postgres/drizzle) backend `PostgresStorage` and an ephemeral backend
`InMemoryStorage`.

The embedding models JS numbers that can arise in amount fields as either a
finite rational or NaN, JS `Date` time values as integer timestamps (with an
invalid date modelled as NaN where the code can produce one), and the external
database collaborator per the specification's description of it (single-row
statements, `RETURNING`, ordered select, affected-row count for delete, and
drizzle's behaviour of skipping `undefined` columns in `set`).
-/

namespace FTPP

/-- Decimal digit accumulator: folds a digit list into a natural number, failing on
any non-digit character. This is the digit-reading core of the model of JS
`Number()` string conversion. -/
def natOfDigits (cs : List Char) : Option Nat :=
  cs.foldl (fun acc c =>
    match acc with
    | none => none
    | some n => if c.isDigit then some (n * 10 + (c.toNat - 48)) else none) (some 0)

/-- Models the JS `Number()` coercion on strings, restricted to plain decimal
literals: optional sign, integer digits, optional fractional part after a dot.
The empty or all-whitespace string converts to 0, as in JS; any other string the
model does not recognize yields `none`, which the callers below turn into NaN. -/
def parseNum (s : String) : Option ℚ :=
  let cs := s.trim.toList
  if cs.isEmpty then some 0
  else
    let signAndRest : Bool × List Char :=
      match cs with
      | '-' :: rest => (true, rest)
      | '+' :: rest => (false, rest)
      | _ => (false, cs)
    let neg := signAndRest.1
    let body := signAndRest.2
    let ip := body.takeWhile (fun c => c != '.')
    let rest := body.dropWhile (fun c => c != '.')
    let fp := rest.drop 1
    if ip.isEmpty && fp.isEmpty then none
    else
      match natOfDigits ip, natOfDigits fp with
      | some i, some f =>
        let mag : ℚ := (i : ℚ) + (f : ℚ) / ((10 : ℚ) ^ fp.length)
        some (if neg then -mag else mag)
      | _, _ => none

/-- A JS number value as stored in a record's numeric field: a finite rational
or NaN. -/
inductive JsNumber where
  | fin (q : ℚ)
  | nan
deriving Repr, DecidableEq

/-- A caller-supplied amount, which at runtime may be a JS number or a string;
the storage code coerces it with `Number(...)`. -/
inductive AmountVal where
  | num (v : JsNumber)
  | str (s : String)
deriving Repr, DecidableEq

/-- JS `Number()` applied to an amount value. -/
def jsToNumber : AmountVal → JsNumber
  | .num v => v
  | .str s =>
    match parseNum s with
    | some q => .fin q
    | none => .nan

/-- JS `Number()` applied to a possibly-undefined amount: `Number(undefined)` is
NaN. -/
def jsToNumberOpt : Option AmountVal → JsNumber
  | some v => jsToNumber v
  | none => .nan

/-- JS truthiness of an amount value: 0, NaN and the empty string are falsy. -/
def amountTruthy : AmountVal → Bool
  | .num (.fin q) => q != 0
  | .num .nan => false
  | .str s => s != ""

/-- Models the JS expression `data.amount || 0` on a possibly-undefined amount. -/
def amountOrZero : Option AmountVal → AmountVal
  | some v => if amountTruthy v then v else .num (.fin 0)
  | none => .num (.fin 0)

/-- Models the JS expression `y || d` for a possibly-undefined integer `y`
(0 is falsy in JS, so a supplied 0 also falls back to the default). -/
def intOrElse (o : Option Int) (d : Int) : Int :=
  match o with
  | some y => if y = 0 then d else y
  | none => d

/-- In-memory salary record, from the `Salary` interface of `server/storage.ts`
(lines 100-108). Dates are modelled as integer timestamps; `notes` is filled
with a default by every creation path, so it is stored as a plain string. -/
structure Salary where
  id : Int
  amount : JsNumber
  month : String
  year : Int
  notes : String
  date : Int
  createdAt : Int
deriving Repr, DecidableEq

/-- In-memory expense record, from the `Expense` interface of
`server/storage.ts` (lines 110-117). The `date` field is a `JsNumber` time
value because `createExpense` computes `new Date(data.date)`, which is an
invalid date (NaN time value) when `data.date` is undefined. -/
structure Expense where
  id : Int
  amount : JsNumber
  category : String
  description : String
  date : JsNumber
  createdAt : Int
deriving Repr, DecidableEq

/-- Modelled from the spec: the `InsertSalary` input type from `shared/schema`
(that file is not under `src/`). Per the data-model section, every field may be
omitted and the amount may arrive as a string. -/
structure InsertSalary where
  amount : Option AmountVal
  month : Option String
  year : Option Int
  notes : Option String
  date : Option Int
deriving Repr, DecidableEq

/-- Modelled from the spec: the `InsertExpense` input type from `shared/schema`
(that file is not under `src/`). The category label is required; amount,
description and date may be omitted, and the amount may arrive as a string. -/
structure InsertExpense where
  amount : Option AmountVal
  category : String
  description : Option String
  date : Option Int
deriving Repr, DecidableEq

/-- Partial update payload for in-memory salary updates
(`Partial<Omit<Salary, 'id' | 'createdAt'>>`): each field is present or absent. -/
structure UpdateSalaryData where
  amount : Option AmountVal
  month : Option String
  year : Option Int
  notes : Option String
  date : Option Int
deriving Repr, DecidableEq

/-- Partial update payload for in-memory expense updates
(`Partial<Omit<Expense, 'id' | 'createdAt'>>`). -/
structure UpdateExpenseData where
  amount : Option AmountVal
  category : Option String
  description : Option String
  date : Option Int
deriving Repr, DecidableEq

/-- Replaces the first element satisfying `p` by its image under `f`, returning
the new element and the new list, or `none` when no element matches. This models
the JS pattern `findIndex` followed by assignment at the found index, used by
the in-memory update operations. -/
def updateFirst (p : α → Bool) (f : α → α) : List α → Option (α × List α)
  | [] => none
  | x :: xs =>
    if p x then some (f x, f x :: xs)
    else
      match updateFirst p f xs with
      | none => none
      | some (y, ys) => some (y, x :: ys)

/-- Removes the first element satisfying `p`, or returns `none` when no element
matches. This models the JS pattern `findIndex` followed by `splice(index, 1)`,
used by the in-memory delete operations. -/
def removeFirst (p : α → Bool) : List α → Option (List α)
  | [] => none
  | x :: xs =>
    if p x then some xs
    else
      match removeFirst p xs with
      | none => none
      | some ys => some (x :: ys)

/-- The private state of an `InMemoryStorage` instance (`server/storage.ts`
lines 119-125): three record lists and three identifier counters starting at 1. -/
structure MemState where
  salaries : List Salary
  expenses : List Expense
  indianExpenses : List Expense
  salaryId : Int
  expenseId : Int
  indianExpenseId : Int
deriving Repr, DecidableEq

/-- The freshly constructed `InMemoryStorage` state. -/
def MemState.init : MemState :=
  { salaries := [], expenses := [], indianExpenses := []
    salaryId := 1, expenseId := 1, indianExpenseId := 1 }

namespace InMemoryStorage

/-- `InMemoryStorage.getSalaries`: returns the salary list as held. -/
def getSalaries (st : MemState) : List Salary :=
  st.salaries

/-- `InMemoryStorage.createSalary` (lines 131-148). `now` models `new Date()`
and `currentYear` models `new Date().getFullYear()` at the time of the call. -/
def createSalary (st : MemState) (data : InsertSalary) (now currentYear : Int) :
    Salary × MemState :=
  let salary : Salary :=
    { id := st.salaryId
      amount := jsToNumber (amountOrZero data.amount)
      month := data.month.getD ""
      year := intOrElse data.year currentYear
      notes := data.notes.getD ""
      date := data.date.getD now
      createdAt := now }
  (salary, { st with salaries := st.salaries ++ [salary], salaryId := st.salaryId + 1 })

/-- `InMemoryStorage.addSalary` (lines 150-167): its body is a verbatim copy of
`createSalary`'s body. -/
def addSalary (st : MemState) (data : InsertSalary) (now currentYear : Int) :
    Salary × MemState :=
  let salary : Salary :=
    { id := st.salaryId
      amount := jsToNumber (amountOrZero data.amount)
      month := data.month.getD ""
      year := intOrElse data.year currentYear
      notes := data.notes.getD ""
      date := data.date.getD now
      createdAt := now }
  (salary, { st with salaries := st.salaries ++ [salary], salaryId := st.salaryId + 1 })

/-- The shallow merge plus re-coercion performed by `InMemoryStorage.updateSalary`
on the found record: spread of the partial data over the record, with `amount`
re-coerced when supplied (strict `!== undefined` test) and `date` re-wrapped in
`new Date` when truthy. -/
def mergeSalary (salary : Salary) (data : UpdateSalaryData) : Salary :=
  { id := salary.id
    amount := match data.amount with | some v => jsToNumber v | none => salary.amount
    month := data.month.getD salary.month
    year := data.year.getD salary.year
    notes := data.notes.getD salary.notes
    date := match data.date with | some t => t | none => salary.date
    createdAt := salary.createdAt }

/-- `InMemoryStorage.updateSalary` (lines 169-183): linear scan by id, `null`
(here `none`) when absent, otherwise replace in place with the shallow merge. -/
def updateSalary (st : MemState) (id : Int) (data : UpdateSalaryData) :
    Option Salary × MemState :=
  match updateFirst (fun s => s.id == id) (fun s => mergeSalary s data) st.salaries with
  | none => (none, st)
  | some (updatedSalary, l) => (some updatedSalary, { st with salaries := l })

/-- `InMemoryStorage.deleteSalary` (lines 185-191): linear scan by id, `false`
when absent, otherwise splice the record out and return `true`. -/
def deleteSalary (st : MemState) (id : Int) : Bool × MemState :=
  match removeFirst (fun s => s.id == id) st.salaries with
  | none => (false, st)
  | some l => (true, { st with salaries := l })

/-- `InMemoryStorage.getExpenses`: returns the expense list as held. -/
def getExpenses (st : MemState) : List Expense :=
  st.expenses

/-- `InMemoryStorage.getIndianExpenses`: returns the regional expense list as
held. -/
def getIndianExpenses (st : MemState) : List Expense :=
  st.indianExpenses

/-- `InMemoryStorage.createExpense` (lines 201-212). Note the asymmetries with
`createSalary`: `amount` is `Number(data.amount)` with no `|| 0` default, `date`
is `new Date(data.date)` unconditionally (an invalid date when absent), and
`createdAt` is always `new Date()`. -/
def createExpense (st : MemState) (data : InsertExpense) (now : Int) :
    Expense × MemState :=
  let expense : Expense :=
    { id := st.expenseId
      amount := jsToNumberOpt data.amount
      category := data.category
      description := data.description.getD ""
      date := match data.date with | some t => .fin t | none => .nan
      createdAt := now }
  (expense, { st with expenses := st.expenses ++ [expense], expenseId := st.expenseId + 1 })

/-- `InMemoryStorage.addExpense` (lines 214-216): delegates to `createExpense`. -/
def addExpense (st : MemState) (data : InsertExpense) (now : Int) :
    Expense × MemState :=
  createExpense st data now

/-- The shallow merge plus re-coercion performed by `InMemoryStorage.updateExpense`
on the found record. -/
def mergeExpense (expense : Expense) (data : UpdateExpenseData) : Expense :=
  { id := expense.id
    amount := match data.amount with | some v => jsToNumber v | none => expense.amount
    category := data.category.getD expense.category
    description := data.description.getD expense.description
    date := match data.date with | some t => .fin t | none => expense.date
    createdAt := expense.createdAt }

/-- `InMemoryStorage.updateExpense` (lines 218-232). -/
def updateExpense (st : MemState) (id : Int) (data : UpdateExpenseData) :
    Option Expense × MemState :=
  match updateFirst (fun e => e.id == id) (fun e => mergeExpense e data) st.expenses with
  | none => (none, st)
  | some (updatedExpense, l) => (some updatedExpense, { st with expenses := l })

/-- `InMemoryStorage.deleteExpense` (lines 234-240). -/
def deleteExpense (st : MemState) (id : Int) : Bool × MemState :=
  match removeFirst (fun e => e.id == id) st.expenses with
  | none => (false, st)
  | some l => (true, { st with expenses := l })

/-- `InMemoryStorage.createIndianExpense` (lines 242-253): same shape as
`createExpense` on the regional collection and counter. -/
def createIndianExpense (st : MemState) (data : InsertExpense) (now : Int) :
    Expense × MemState :=
  let expense : Expense :=
    { id := st.indianExpenseId
      amount := jsToNumberOpt data.amount
      category := data.category
      description := data.description.getD ""
      date := match data.date with | some t => .fin t | none => .nan
      createdAt := now }
  (expense,
    { st with indianExpenses := st.indianExpenses ++ [expense]
              indianExpenseId := st.indianExpenseId + 1 })

/-- `InMemoryStorage.deleteIndianExpense` (lines 255-260). -/
def deleteIndianExpense (st : MemState) (id : Int) : Bool × MemState :=
  match removeFirst (fun e => e.id == id) st.indianExpenses with
  | none => (false, st)
  | some l => (true, { st with indianExpenses := l })

end InMemoryStorage

/-- Modelled from the spec: a salary row of the persistent store, per the
schema collaborator description (the `shared/schema` file is not under `src/`):
identifier, numeric amount, month label, year, optional note, effective date,
creation timestamp. Dates are integer timestamps; a nullable/omittable column
is an `Option`. -/
structure PgSalary where
  id : Int
  amount : JsNumber
  month : String
  year : Int
  notes : Option String
  date : Option Int
  createdAt : Int
deriving Repr, DecidableEq

/-- Modelled from the spec: an expense row of the persistent store, per the
schema collaborator description. -/
structure PgExpense where
  id : Int
  amount : JsNumber
  category : String
  description : Option String
  date : Option Int
  createdAt : Int
deriving Repr, DecidableEq

/-- Insert payload for `PostgresStorage.addSalary`
(`Omit<Salary, 'id' | 'createdAt'>`): all attribute fields present, the amount
possibly a string at runtime. -/
structure PgInsertSalary where
  amount : AmountVal
  month : String
  year : Int
  notes : Option String
  date : Option Int
deriving Repr, DecidableEq

/-- Insert payload for `PostgresStorage.addExpense`
(`Omit<Expense, 'id' | 'createdAt'>`). -/
structure PgInsertExpense where
  amount : AmountVal
  category : String
  description : Option String
  date : Option Int
deriving Repr, DecidableEq

/-- Modelled from the spec: the `UpdateSalary` type from `shared/schema` (not
under `src/`): the target identifier plus a partial set of salary fields, where
`none` means the field was not supplied. -/
structure UpdateSalary where
  id : Int
  amount : Option AmountVal
  month : Option String
  year : Option Int
  notes : Option String
  date : Option Int
deriving Repr, DecidableEq

/-- Modelled from the spec: the `UpdateExpense` type from `shared/schema` (not
under `src/`). -/
structure UpdateExpense where
  id : Int
  amount : Option AmountVal
  category : Option String
  description : Option String
  date : Option Int
deriving Repr, DecidableEq

/-- The relevant state of the persistent store: the two tables plus the
store-assigned identifier sequences. -/
structure PgState where
  salaries : List PgSalary
  expenses : List PgExpense
  nextSalaryId : Int
  nextExpenseId : Int
deriving Repr, DecidableEq

/-- Creation-time order on salary rows, used to model `ORDER BY createdAt`. -/
def pgSalaryByCreatedAt (a b : PgSalary) : Prop :=
  a.createdAt ≤ b.createdAt

instance : DecidableRel pgSalaryByCreatedAt :=
  fun a b => Int.decLe a.createdAt b.createdAt

instance : IsTotal PgSalary pgSalaryByCreatedAt :=
  ⟨fun a b => Int.le_total a.createdAt b.createdAt⟩

instance : IsTrans PgSalary pgSalaryByCreatedAt :=
  ⟨fun _ _ _ h h' => le_trans h h'⟩

/-- Creation-time order on expense rows. -/
def pgExpenseByCreatedAt (a b : PgExpense) : Prop :=
  a.createdAt ≤ b.createdAt

instance : DecidableRel pgExpenseByCreatedAt :=
  fun a b => Int.decLe a.createdAt b.createdAt

instance : IsTotal PgExpense pgExpenseByCreatedAt :=
  ⟨fun a b => Int.le_total a.createdAt b.createdAt⟩

instance : IsTrans PgExpense pgExpenseByCreatedAt :=
  ⟨fun _ _ _ h h' => le_trans h h'⟩

namespace PostgresStorage

/-- `PostgresStorage.getSalaries` (lines 21-23): `select ... orderBy(createdAt)`.
The ordered select of the database collaborator is modelled as a sort of the
table's rows by creation timestamp. -/
def getSalaries (st : PgState) : List PgSalary :=
  List.insertionSort pgSalaryByCreatedAt st.salaries

/-- `PostgresStorage.addSalary` (lines 25-32): insert with the amount coerced by
`Number(...)` and `createdAt: new Date()`; the store assigns the identifier and
the `RETURNING` row is the result. -/
def addSalary (st : PgState) (insertSalary : PgInsertSalary) (now : Int) :
    PgSalary × PgState :=
  let salary : PgSalary :=
    { id := st.nextSalaryId
      amount := jsToNumber insertSalary.amount
      month := insertSalary.month
      year := insertSalary.year
      notes := insertSalary.notes
      date := insertSalary.date
      createdAt := now }
  (salary, { st with salaries := st.salaries ++ [salary], nextSalaryId := st.nextSalaryId + 1 })

/-- The column assignment built by `PostgresStorage.updateSalary`:
`set({...values, amount: Number(values.amount)})`. The drizzle collaborator
skips columns whose value is `undefined` (modelled by `none`), but the `amount`
key is always present, so an update that omits the amount writes
`Number(undefined)`, i.e. NaN. -/
def applySalarySet (values : UpdateSalary) (r : PgSalary) : PgSalary :=
  { id := r.id
    amount := jsToNumberOpt values.amount
    month := values.month.getD r.month
    year := values.year.getD r.year
    notes := match values.notes with | some n => some n | none => r.notes
    date := match values.date with | some d => some d | none => r.date
    createdAt := r.createdAt }

/-- `PostgresStorage.updateSalary` (lines 34-47): update-by-id with `RETURNING`;
the destructured first returned row is the result, and an empty return throws a
descriptive not-found error. -/
def updateSalary (st : PgState) (u : UpdateSalary) :
    Except String PgSalary × PgState :=
  let updated := st.salaries.map (fun r => if r.id == u.id then applySalarySet u r else r)
  let returned := updated.filter (fun r => r.id == u.id)
  let st' : PgState := { st with salaries := updated }
  match returned.head? with
  | some salary => (.ok salary, st')
  | none => (.error ("Salary with id " ++ toString u.id ++ " not found"), st')

/-- `PostgresStorage.deleteSalary` (lines 48-51). Modelled from the spec: the
delete primitive of the connection collaborator reports the affected-row count,
and the operation returns whether that count is nonzero. -/
def deleteSalary (st : PgState) (id : Int) : Bool × PgState :=
  let deleteCount := st.salaries.countP (fun r => r.id == id)
  (decide (0 < deleteCount), { st with salaries := st.salaries.filter (fun r => !(r.id == id)) })

/-- `PostgresStorage.getExpenses` (lines 53-55). -/
def getExpenses (st : PgState) : List PgExpense :=
  List.insertionSort pgExpenseByCreatedAt st.expenses

/-- `PostgresStorage.addExpense` (lines 57-64): `createdAt` is
`insertExpense.date ? new Date(insertExpense.date) : new Date()`. -/
def addExpense (st : PgState) (insertExpense : PgInsertExpense) (now : Int) :
    PgExpense × PgState :=
  let expense : PgExpense :=
    { id := st.nextExpenseId
      amount := jsToNumber insertExpense.amount
      category := insertExpense.category
      description := insertExpense.description
      date := insertExpense.date
      createdAt := match insertExpense.date with | some d => d | none => now }
  (expense, { st with expenses := st.expenses ++ [expense], nextExpenseId := st.nextExpenseId + 1 })

/-- The column assignment built by `PostgresStorage.updateExpense`: as for
salaries the `amount` key is always present (`Number(undefined)` is NaN when
omitted), and `createdAt` is set to `new Date(values.date)` when a date is
supplied and skipped (`undefined`) otherwise. -/
def applyExpenseSet (values : UpdateExpense) (r : PgExpense) : PgExpense :=
  { id := r.id
    amount := jsToNumberOpt values.amount
    category := values.category.getD r.category
    description := match values.description with | some s => some s | none => r.description
    date := match values.date with | some d => some d | none => r.date
    createdAt := match values.date with | some d => d | none => r.createdAt }

/-- `PostgresStorage.updateExpense` (lines 66-83). -/
def updateExpense (st : PgState) (u : UpdateExpense) :
    Except String PgExpense × PgState :=
  let updated := st.expenses.map (fun r => if r.id == u.id then applyExpenseSet u r else r)
  let returned := updated.filter (fun r => r.id == u.id)
  let st' : PgState := { st with expenses := updated }
  match returned.head? with
  | some expense => (.ok expense, st')
  | none => (.error ("Expense with id " ++ toString u.id ++ " not found"), st')

/-- `PostgresStorage.deleteExpense` (lines 84-87). -/
def deleteExpense (st : PgState) (id : Int) : Bool × PgState :=
  let deleteCount := st.expenses.countP (fun r => r.id == id)
  (decide (0 < deleteCount), { st with expenses := st.expenses.filter (fun r => !(r.id == id)) })

/-- `PostgresStorage.getIndianExpenses` (lines 88-90): unconditionally throws. -/
def getIndianExpenses (_st : PgState) : Except String (List PgExpense) :=
  .error ("Method not implemented.")

/-- `PostgresStorage.createIndianExpense` (lines 91-93): unconditionally throws. -/
def createIndianExpense (_st : PgState) (_data : PgInsertExpense) :
    Except String PgExpense :=
  .error ("Method not implemented.")

/-- `PostgresStorage.deleteIndianExpense` (lines 94-96): unconditionally throws. -/
def deleteIndianExpense (_st : PgState) (_id : Int) : Except String Bool :=
  .error ("Method not implemented.")

end PostgresStorage

/-- One call against an `InMemoryStorage` instance. Operations that read the
clock carry the `new Date()` value (`now`) observed during the call; salary
creation additionally carries `new Date().getFullYear()`. -/
inductive MemOp where
  | createSalaryOp (data : InsertSalary) (now currentYear : Int)
  | addSalaryOp (data : InsertSalary) (now currentYear : Int)
  | updateSalaryOp (id : Int) (data : UpdateSalaryData)
  | deleteSalaryOp (id : Int)
  | createExpenseOp (data : InsertExpense) (now : Int)
  | addExpenseOp (data : InsertExpense) (now : Int)
  | updateExpenseOp (id : Int) (data : UpdateExpenseData)
  | deleteExpenseOp (id : Int)
  | createIndianExpenseOp (data : InsertExpense) (now : Int)
  | deleteIndianExpenseOp (id : Int)
deriving Repr, DecidableEq

/-- State transition of a single `InMemoryStorage` call. -/
def applyOp (st : MemState) : MemOp → MemState
  | .createSalaryOp data now currentYear => (InMemoryStorage.createSalary st data now currentYear).2
  | .addSalaryOp data now currentYear => (InMemoryStorage.addSalary st data now currentYear).2
  | .updateSalaryOp id data => (InMemoryStorage.updateSalary st id data).2
  | .deleteSalaryOp id => (InMemoryStorage.deleteSalary st id).2
  | .createExpenseOp data now => (InMemoryStorage.createExpense st data now).2
  | .addExpenseOp data now => (InMemoryStorage.addExpense st data now).2
  | .updateExpenseOp id data => (InMemoryStorage.updateExpense st id data).2
  | .deleteExpenseOp id => (InMemoryStorage.deleteExpense st id).2
  | .createIndianExpenseOp data now => (InMemoryStorage.createIndianExpense st data now).2
  | .deleteIndianExpenseOp id => (InMemoryStorage.deleteIndianExpense st id).2

/-- Runs a sequence of calls from a given state. -/
def runOps (st : MemState) : List MemOp → MemState
  | [] => st
  | op :: ops => runOps (applyOp st op) ops

/-- The clock value an operation observes, when it reads the clock at all. -/
def opTime : MemOp → Option Int
  | .createSalaryOp _ now _ => some now
  | .addSalaryOp _ now _ => some now
  | .createExpenseOp _ now => some now
  | .addExpenseOp _ now => some now
  | .createIndianExpenseOp _ now => some now
  | _ => none

/-- Decides that the clock values observed along an operation sequence are
non-decreasing starting from `t` — the physical assumption that wall-clock time
does not run backwards between calls. -/
def timesMonoB (t : Int) : List MemOp → Bool
  | [] => true
  | op :: ops =>
    match opTime op with
    | none => timesMonoB t ops
    | some t' => decide (t ≤ t') && timesMonoB t' ops

/-- Whether an operation is a salary creation (returning a fresh identifier). -/
def isSalaryCreate : MemOp → Bool
  | .createSalaryOp .. => true
  | .addSalaryOp .. => true
  | _ => false

/-- Whether an operation is an expense creation. -/
def isExpenseCreate : MemOp → Bool
  | .createExpenseOp .. => true
  | .addExpenseOp .. => true
  | _ => false

/-- Whether an operation is a regional-expense creation. -/
def isIndianCreate : MemOp → Bool
  | .createIndianExpenseOp .. => true
  | _ => false

/-- The identifiers returned by salary creations along an operation sequence,
in call order. -/
def salaryIdsFrom (st : MemState) : List MemOp → List Int
  | [] => []
  | op :: ops =>
    match op with
    | .createSalaryOp data now currentYear =>
      (InMemoryStorage.createSalary st data now currentYear).1.id ::
        salaryIdsFrom (applyOp st op) ops
    | .addSalaryOp data now currentYear =>
      (InMemoryStorage.addSalary st data now currentYear).1.id ::
        salaryIdsFrom (applyOp st op) ops
    | _ => salaryIdsFrom (applyOp st op) ops

/-- The identifiers returned by expense creations along an operation sequence. -/
def expenseIdsFrom (st : MemState) : List MemOp → List Int
  | [] => []
  | op :: ops =>
    match op with
    | .createExpenseOp data now =>
      (InMemoryStorage.createExpense st data now).1.id :: expenseIdsFrom (applyOp st op) ops
    | .addExpenseOp data now =>
      (InMemoryStorage.addExpense st data now).1.id :: expenseIdsFrom (applyOp st op) ops
    | _ => expenseIdsFrom (applyOp st op) ops

/-- The identifiers returned by regional-expense creations along an operation
sequence. -/
def indianIdsFrom (st : MemState) : List MemOp → List Int
  | [] => []
  | op :: ops =>
    match op with
    | .createIndianExpenseOp data now =>
      (InMemoryStorage.createIndianExpense st data now).1.id :: indianIdsFrom (applyOp st op) ops
    | _ => indianIdsFrom (applyOp st op) ops

/-- The list `[start, start + 1, ..., start + n - 1]` of consecutively assigned
identifiers. -/
def expectedIds (start : Int) : Nat → List Int
  | 0 => []
  | n + 1 => start :: expectedIds (start + 1) n

/-- Sortedness-with-bound invariant for a record list keyed by `k`: the list is
ordered by the key and every key is at most the clock bound `t`. -/
def keyInv (k : α → Int) (t : Int) (l : List α) : Prop :=
  l.Pairwise (fun a b => k a ≤ k b) ∧ ∀ z ∈ l, k z ≤ t

/-- The clock-bounded sortedness invariant of a whole `InMemoryStorage` state:
each of the three collections is ordered by creation timestamp, all of which
are at most `t`. -/
def memInv (t : Int) (st : MemState) : Prop :=
  keyInv Salary.createdAt t st.salaries ∧
  keyInv Expense.createdAt t st.expenses ∧
  keyInv Expense.createdAt t st.indianExpenses

/-! ### Generic lemmas about the scan-and-mutate helpers -/

theorem updateFirst_eq_some {p : α → Bool} {f : α → α} :
    ∀ {l : List α} {y : α} {l' : List α}, updateFirst p f l = some (y, l') →
      ∃ l1 x l2, l = l1 ++ x :: l2 ∧ (∀ z ∈ l1, p z = false) ∧ p x = true ∧
        y = f x ∧ l' = l1 ++ f x :: l2
  | [], y, l', h => by simp [updateFirst] at h
  | x :: xs, y, l', h => by
    by_cases hp : p x
    · simp only [updateFirst, hp, if_true, Option.some.injEq, Prod.mk.injEq] at h
      exact ⟨[], x, xs, rfl, by simp, hp, h.1.symm, by simp [h.2.symm]⟩
    · rw [updateFirst, if_neg hp] at h
      cases hrec : updateFirst p f xs with
      | none => rw [hrec] at h; exact absurd h (by simp)
      | some pr =>
        obtain ⟨y0, ys⟩ := pr
        rw [hrec] at h
        simp only [Option.some.injEq, Prod.mk.injEq] at h
        obtain ⟨l1, x0, l2, hxs, hnone, hx0, hy0, hys⟩ := updateFirst_eq_some hrec
        refine ⟨x :: l1, x0, l2, by simp [hxs], ?_, hx0, h.1.symm.trans hy0, ?_⟩
        · intro z hz
          rcases List.mem_cons.mp hz with hz | hz
          · subst hz; simpa using hp
          · exact hnone z hz
        · rw [← h.2, hys]; simp

theorem updateFirst_eq_none {p : α → Bool} {f : α → α} :
    ∀ {l : List α}, updateFirst p f l = none ↔ ∀ x ∈ l, p x = false
  | [] => by simp [updateFirst]
  | x :: xs => by
    by_cases hp : p x
    · simp [updateFirst, hp]
    · rw [updateFirst, if_neg hp]
      cases hrec : updateFirst p f xs with
      | none =>
        simp only [hrec]
        constructor
        · intro _ z hz
          rcases List.mem_cons.mp hz with hz | hz
          · subst hz; simpa using hp
          · exact (updateFirst_eq_none (l := xs)).mp hrec z hz
        · intro _; trivial
      | some pr =>
        obtain ⟨y0, ys⟩ := pr
        simp only [hrec]
        constructor
        · intro h; exact absurd h (by simp)
        · intro h
          have : updateFirst p f xs = none :=
            (updateFirst_eq_none (l := xs)).mpr fun z hz => h z (List.mem_cons_of_mem _ hz)
          rw [this] at hrec
          exact absurd hrec (by simp)

theorem removeFirst_eq_some {p : α → Bool} :
    ∀ {l l' : List α}, removeFirst p l = some l' →
      ∃ l1 x l2, l = l1 ++ x :: l2 ∧ (∀ z ∈ l1, p z = false) ∧ p x = true ∧ l' = l1 ++ l2
  | [], l', h => by simp [removeFirst] at h
  | x :: xs, l', h => by
    by_cases hp : p x
    · simp only [removeFirst, hp, if_true, Option.some.injEq] at h
      exact ⟨[], x, xs, rfl, by simp, hp, by simp [h.symm]⟩
    · rw [removeFirst, if_neg hp] at h
      cases hrec : removeFirst p xs with
      | none => rw [hrec] at h; exact absurd h (by simp)
      | some ys =>
        rw [hrec] at h
        simp only [Option.some.injEq] at h
        obtain ⟨l1, x0, l2, hxs, hnone, hx0, hys⟩ := removeFirst_eq_some hrec
        refine ⟨x :: l1, x0, l2, by simp [hxs], ?_, hx0, by rw [← h, hys]; simp⟩
        intro z hz
        rcases List.mem_cons.mp hz with hz | hz
        · subst hz; simpa using hp
        · exact hnone z hz

theorem removeFirst_eq_none {p : α → Bool} :
    ∀ {l : List α}, removeFirst p l = none ↔ ∀ x ∈ l, p x = false
  | [] => by simp [removeFirst]
  | x :: xs => by
    by_cases hp : p x
    · simp [removeFirst, hp]
    · rw [removeFirst, if_neg hp]
      cases hrec : removeFirst p xs with
      | none =>
        simp only [hrec]
        constructor
        · intro _ z hz
          rcases List.mem_cons.mp hz with hz | hz
          · subst hz; simpa using hp
          · exact (removeFirst_eq_none (l := xs)).mp hrec z hz
        · intro _; trivial
      | some ys =>
        simp only [hrec]
        constructor
        · intro h; exact absurd h (by simp)
        · intro h
          have : removeFirst p xs = none :=
            (removeFirst_eq_none (l := xs)).mpr fun z hz => h z (List.mem_cons_of_mem _ hz)
          rw [this] at hrec
          exact absurd hrec (by simp)

theorem head?_mem' {l : List α} {a : α} (h : l.head? = some a) : a ∈ l := by
  cases l with
  | nil => simp at h
  | cons x xs => simp_all

theorem map_update_id (k : β → Int) (idv : Int) (f : β → β) {l : List β}
    (h : ∀ x ∈ l, k x ≠ idv) :
    l.map (fun x => if k x == idv then f x else x) = l := by
  induction l with
  | nil => rfl
  | cons x xs ih =>
    simp only [List.map_cons]
    rw [if_neg (by simpa using h x (List.mem_cons_self x xs)),
      ih fun z hz => h z (List.mem_cons_of_mem _ hz)]

/-! ### Preservation of the sortedness invariant -/

theorem keyInv_mono {k : α → Int} {t t' : Int} {l : List α}
    (h : keyInv k t l) (hle : t ≤ t') : keyInv k t' l :=
  ⟨h.1, fun z hz => le_trans (h.2 z hz) hle⟩

theorem keyInv_append {k : α → Int} {t t' : Int} {l : List α} {x : α}
    (h : keyInv k t l) (hx : k x = t') (hle : t ≤ t') : keyInv k t' (l ++ [x]) := by
  constructor
  · refine List.pairwise_append.mpr ⟨h.1, List.pairwise_singleton _ _, ?_⟩
    intro a ha b hb
    have hb' : b = x := by simpa using hb
    subst hb'
    have := h.2 a ha
    omega
  · intro z hz
    rcases List.mem_append.mp hz with h1 | h2
    · exact le_trans (h.2 z h1) hle
    · have hz' : z = x := by simpa using h2
      subst hz'
      omega

theorem keyInv_updateFirst {k : α → Int} {t : Int} {p : α → Bool} {f : α → α}
    {l : List α} {y : α} {l' : List α}
    (hu : updateFirst p f l = some (y, l')) (hf : ∀ x, k (f x) = k x)
    (h : keyInv k t l) : keyInv k t l' := by
  obtain ⟨l1, x, l2, hl, _, _, _, hl'⟩ := updateFirst_eq_some hu
  subst hl hl'
  constructor
  · have h1 := h.1
    rw [List.pairwise_append] at h1 ⊢
    obtain ⟨hp1, hp2, hcross⟩ := h1
    rw [List.pairwise_cons] at hp2 ⊢
    refine ⟨hp1, ⟨fun z hz => ?_, hp2.2⟩, fun a ha b hb => ?_⟩
    · show k (f x) ≤ k z
      rw [hf]
      exact hp2.1 z hz
    · rcases List.mem_cons.mp hb with hb | hb
      · subst hb
        show k a ≤ k (f x)
        rw [hf]
        exact hcross a ha x (List.mem_cons_self x l2)
      · exact hcross a ha b (List.mem_cons_of_mem _ hb)
  · intro z hz
    rcases List.mem_append.mp hz with hz | hz
    · exact h.2 z (List.mem_append_left _ hz)
    · rcases List.mem_cons.mp hz with hz | hz
      · subst hz
        rw [hf]
        exact h.2 x (by simp)
      · exact h.2 z (by simp [hz])

theorem keyInv_removeFirst {k : α → Int} {t : Int} {p : α → Bool}
    {l l' : List α} (hr : removeFirst p l = some l') (h : keyInv k t l) : keyInv k t l' := by
  obtain ⟨l1, x, l2, hl, _, _, hl'⟩ := removeFirst_eq_some hr
  subst hl hl'
  have hsub : (l1 ++ l2).Sublist (l1 ++ x :: l2) :=
    List.Sublist.append_left (List.Sublist.cons x (List.Sublist.refl l2)) l1
  exact ⟨h.1.sublist hsub, fun z hz => h.2 z (hsub.mem hz)⟩

theorem applyOp_inv_none {st : MemState} {op : MemOp} {t : Int} (hinv : memInv t st)
    (h : opTime op = none) : memInv t (applyOp st op) := by
  obtain ⟨hs, he, hi⟩ := hinv
  cases op with
  | createSalaryOp data now currentYear => simp [opTime] at h
  | addSalaryOp data now currentYear => simp [opTime] at h
  | createExpenseOp data now => simp [opTime] at h
  | addExpenseOp data now => simp [opTime] at h
  | createIndianExpenseOp data now => simp [opTime] at h
  | updateSalaryOp id data =>
    simp only [applyOp, InMemoryStorage.updateSalary]
    cases hu : updateFirst (fun s => s.id == id)
        (fun s => InMemoryStorage.mergeSalary s data) st.salaries with
    | none => exact ⟨hs, he, hi⟩
    | some pr =>
      obtain ⟨y, l⟩ := pr
      show memInv t { st with salaries := l }
      exact ⟨keyInv_updateFirst hu (fun x => rfl) hs, he, hi⟩
  | deleteSalaryOp id =>
    simp only [applyOp, InMemoryStorage.deleteSalary]
    cases hr : removeFirst (fun s => s.id == id) st.salaries with
    | none => exact ⟨hs, he, hi⟩
    | some l => exact ⟨keyInv_removeFirst hr hs, he, hi⟩
  | updateExpenseOp id data =>
    simp only [applyOp, InMemoryStorage.updateExpense]
    cases hu : updateFirst (fun e => e.id == id)
        (fun e => InMemoryStorage.mergeExpense e data) st.expenses with
    | none => exact ⟨hs, he, hi⟩
    | some pr =>
      obtain ⟨y, l⟩ := pr
      show memInv t { st with expenses := l }
      exact ⟨hs, keyInv_updateFirst hu (fun x => rfl) he, hi⟩
  | deleteExpenseOp id =>
    simp only [applyOp, InMemoryStorage.deleteExpense]
    cases hr : removeFirst (fun e => e.id == id) st.expenses with
    | none => exact ⟨hs, he, hi⟩
    | some l => exact ⟨hs, keyInv_removeFirst hr he, hi⟩
  | deleteIndianExpenseOp id =>
    simp only [applyOp, InMemoryStorage.deleteIndianExpense]
    cases hr : removeFirst (fun e => e.id == id) st.indianExpenses with
    | none => exact ⟨hs, he, hi⟩
    | some l => exact ⟨hs, he, keyInv_removeFirst hr hi⟩

theorem applyOp_inv_some {st : MemState} {op : MemOp} {t s : Int} (hinv : memInv t st)
    (h : opTime op = some s) (hle : t ≤ s) : memInv s (applyOp st op) := by
  obtain ⟨hs, he, hi⟩ := hinv
  cases op with
  | createSalaryOp data now currentYear =>
    obtain rfl : now = s := by simpa [opTime] using h
    exact ⟨keyInv_append hs rfl hle, keyInv_mono he hle, keyInv_mono hi hle⟩
  | addSalaryOp data now currentYear =>
    obtain rfl : now = s := by simpa [opTime] using h
    exact ⟨keyInv_append hs rfl hle, keyInv_mono he hle, keyInv_mono hi hle⟩
  | createExpenseOp data now =>
    obtain rfl : now = s := by simpa [opTime] using h
    exact ⟨keyInv_mono hs hle, keyInv_append he rfl hle, keyInv_mono hi hle⟩
  | addExpenseOp data now =>
    obtain rfl : now = s := by simpa [opTime] using h
    exact ⟨keyInv_mono hs hle, keyInv_append he rfl hle, keyInv_mono hi hle⟩
  | createIndianExpenseOp data now =>
    obtain rfl : now = s := by simpa [opTime] using h
    exact ⟨keyInv_mono hs hle, keyInv_mono he hle, keyInv_append hi rfl hle⟩
  | updateSalaryOp id data => simp [opTime] at h
  | deleteSalaryOp id => simp [opTime] at h
  | updateExpenseOp id data => simp [opTime] at h
  | deleteExpenseOp id => simp [opTime] at h
  | deleteIndianExpenseOp id => simp [opTime] at h

theorem memInv_runOps :
    ∀ (ops : List MemOp) (st : MemState) (t : Int), memInv t st → timesMonoB t ops = true →
      ∃ t', memInv t' (runOps st ops)
  | [], _, t, hinv, _ => ⟨t, hinv⟩
  | op :: ops, st, t, hinv, hmono => by
    rw [timesMonoB] at hmono
    cases hot : opTime op with
    | none =>
      rw [hot] at hmono
      exact memInv_runOps ops _ t (applyOp_inv_none hinv hot) hmono
    | some s =>
      rw [hot, Bool.and_eq_true, decide_eq_true_eq] at hmono
      exact memInv_runOps ops _ s (applyOp_inv_some hinv hot hmono.1) hmono.2

/-! ### Identifier-counter lemmas -/

theorem applyOp_salaryId (st : MemState) (op : MemOp) :
    (applyOp st op).salaryId =
      if isSalaryCreate op then st.salaryId + 1 else st.salaryId := by
  cases op <;>
    simp only [applyOp, isSalaryCreate, if_true, if_false,
      InMemoryStorage.createSalary, InMemoryStorage.addSalary,
      InMemoryStorage.updateSalary, InMemoryStorage.deleteSalary,
      InMemoryStorage.createExpense, InMemoryStorage.addExpense,
      InMemoryStorage.updateExpense, InMemoryStorage.deleteExpense,
      InMemoryStorage.createIndianExpense, InMemoryStorage.deleteIndianExpense] <;>
    first
      | rfl
      | (split <;> rfl)

theorem applyOp_expenseId (st : MemState) (op : MemOp) :
    (applyOp st op).expenseId =
      if isExpenseCreate op then st.expenseId + 1 else st.expenseId := by
  cases op <;>
    simp only [applyOp, isExpenseCreate, if_true, if_false,
      InMemoryStorage.createSalary, InMemoryStorage.addSalary,
      InMemoryStorage.updateSalary, InMemoryStorage.deleteSalary,
      InMemoryStorage.createExpense, InMemoryStorage.addExpense,
      InMemoryStorage.updateExpense, InMemoryStorage.deleteExpense,
      InMemoryStorage.createIndianExpense, InMemoryStorage.deleteIndianExpense] <;>
    first
      | rfl
      | (split <;> rfl)

theorem applyOp_indianExpenseId (st : MemState) (op : MemOp) :
    (applyOp st op).indianExpenseId =
      if isIndianCreate op then st.indianExpenseId + 1 else st.indianExpenseId := by
  cases op <;>
    simp only [applyOp, isIndianCreate, if_true, if_false,
      InMemoryStorage.createSalary, InMemoryStorage.addSalary,
      InMemoryStorage.updateSalary, InMemoryStorage.deleteSalary,
      InMemoryStorage.createExpense, InMemoryStorage.addExpense,
      InMemoryStorage.updateExpense, InMemoryStorage.deleteExpense,
      InMemoryStorage.createIndianExpense, InMemoryStorage.deleteIndianExpense] <;>
    first
      | rfl
      | (split <;> rfl)

theorem salaryIdsFrom_eq :
    ∀ (ops : List MemOp) (st : MemState),
      salaryIdsFrom st ops = expectedIds st.salaryId (ops.countP isSalaryCreate)
  | [], _ => rfl
  | op :: ops, st => by
    have ih := salaryIdsFrom_eq ops (applyOp st op)
    have hid := applyOp_salaryId st op
    cases op <;>
      simp_all [salaryIdsFrom, List.countP_cons, isSalaryCreate, expectedIds,
        InMemoryStorage.createSalary, InMemoryStorage.addSalary]

theorem expenseIdsFrom_eq :
    ∀ (ops : List MemOp) (st : MemState),
      expenseIdsFrom st ops = expectedIds st.expenseId (ops.countP isExpenseCreate)
  | [], _ => rfl
  | op :: ops, st => by
    have ih := expenseIdsFrom_eq ops (applyOp st op)
    have hid := applyOp_expenseId st op
    cases op <;>
      simp_all [expenseIdsFrom, List.countP_cons, isExpenseCreate, expectedIds,
        InMemoryStorage.createExpense, InMemoryStorage.addExpense]

theorem indianIdsFrom_eq :
    ∀ (ops : List MemOp) (st : MemState),
      indianIdsFrom st ops = expectedIds st.indianExpenseId (ops.countP isIndianCreate)
  | [], _ => rfl
  | op :: ops, st => by
    have ih := indianIdsFrom_eq ops (applyOp st op)
    have hid := applyOp_indianExpenseId st op
    cases op <;>
      simp_all [indianIdsFrom, List.countP_cons, isIndianCreate,
        InMemoryStorage.createIndianExpense, expectedIds]

theorem mem_expectedIds :
    ∀ {n : Nat} {start x : Int}, x ∈ expectedIds start n → start ≤ x
  | 0, start, x, h => by simp [expectedIds] at h
  | n + 1, start, x, h => by
    rcases List.mem_cons.mp h with h | h
    · omega
    · have := mem_expectedIds (n := n) h
      omega

theorem expectedIds_pairwise :
    ∀ (n : Nat) (start : Int), (expectedIds start n).Pairwise (fun a b => a < b)
  | 0, _ => List.Pairwise.nil
  | n + 1, start => by
    rw [expectedIds]
    refine List.Pairwise.cons (fun x hx => ?_) (expectedIds_pairwise n (start + 1))
    have := mem_expectedIds hx
    omega

theorem expectedIds_head (n : Nat) (start : Int) (h : 0 < n) :
    (expectedIds start n).head? = some start := by
  cases n with
  | zero => omega
  | succ n => rfl

/-! ### Decomposition of successful and failed updates -/

theorem memUpdateSalary_ok {st : MemState} {id : Int} {data : UpdateSalaryData}
    {r : Salary} {st' : MemState}
    (h : InMemoryStorage.updateSalary st id data = (some r, st')) :
    ∃ s ∈ st.salaries, s.id = id ∧ r = InMemoryStorage.mergeSalary s data ∧
      r ∈ st'.salaries := by
  rw [InMemoryStorage.updateSalary] at h
  cases hu : updateFirst (fun s => s.id == id)
      (fun s => InMemoryStorage.mergeSalary s data) st.salaries with
  | none => rw [hu] at h; exact absurd h (by simp)
  | some pr =>
    obtain ⟨y, l⟩ := pr
    rw [hu] at h
    simp only [Prod.mk.injEq, Option.some.injEq] at h
    obtain ⟨l1, x, l2, hl, _, hx, hy, hl'⟩ := updateFirst_eq_some hu
    refine ⟨x, by rw [hl]; simp, by simpa using hx, by rw [← h.1, hy], ?_⟩
    rw [← h.2]
    show r ∈ l
    rw [hl', ← h.1, hy]
    simp

theorem memUpdateExpense_ok {st : MemState} {id : Int} {data : UpdateExpenseData}
    {r : Expense} {st' : MemState}
    (h : InMemoryStorage.updateExpense st id data = (some r, st')) :
    ∃ e ∈ st.expenses, e.id = id ∧ r = InMemoryStorage.mergeExpense e data ∧
      r ∈ st'.expenses := by
  rw [InMemoryStorage.updateExpense] at h
  cases hu : updateFirst (fun e => e.id == id)
      (fun e => InMemoryStorage.mergeExpense e data) st.expenses with
  | none => rw [hu] at h; exact absurd h (by simp)
  | some pr =>
    obtain ⟨y, l⟩ := pr
    rw [hu] at h
    simp only [Prod.mk.injEq, Option.some.injEq] at h
    obtain ⟨l1, x, l2, hl, _, hx, hy, hl'⟩ := updateFirst_eq_some hu
    refine ⟨x, by rw [hl]; simp, by simpa using hx, by rw [← h.1, hy], ?_⟩
    rw [← h.2]
    show r ∈ l
    rw [hl', ← h.1, hy]
    simp

theorem memUpdateSalary_notfound {st : MemState} {id : Int} {data : UpdateSalaryData}
    (h : ∀ s ∈ st.salaries, s.id ≠ id) :
    InMemoryStorage.updateSalary st id data = (none, st) := by
  have hn : updateFirst (fun s => s.id == id)
      (fun s => InMemoryStorage.mergeSalary s data) st.salaries = none :=
    updateFirst_eq_none.mpr fun x hx => by simp [h x hx]
  simp [InMemoryStorage.updateSalary, hn]

theorem memUpdateExpense_notfound {st : MemState} {id : Int} {data : UpdateExpenseData}
    (h : ∀ e ∈ st.expenses, e.id ≠ id) :
    InMemoryStorage.updateExpense st id data = (none, st) := by
  have hn : updateFirst (fun e => e.id == id)
      (fun e => InMemoryStorage.mergeExpense e data) st.expenses = none :=
    updateFirst_eq_none.mpr fun x hx => by simp [h x hx]
  simp [InMemoryStorage.updateExpense, hn]

theorem pgUpdateSalary_ok {st : PgState} {u : UpdateSalary} {r : PgSalary} {st' : PgState}
    (h : PostgresStorage.updateSalary st u = (.ok r, st')) :
    ∃ row ∈ st.salaries, row.id = u.id ∧ r = PostgresStorage.applySalarySet u row ∧
      r ∈ st'.salaries := by
  rw [PostgresStorage.updateSalary] at h
  cases hh : ((st.salaries.map
        (fun rr => if rr.id == u.id then PostgresStorage.applySalarySet u rr else rr)).filter
      (fun rr => rr.id == u.id)).head? with
  | none => rw [hh] at h; exact absurd h (by simp)
  | some e =>
    rw [hh] at h
    simp only [Prod.mk.injEq, Except.ok.injEq] at h
    obtain ⟨rfl, rfl⟩ := h
    have hmem := head?_mem' hh
    rw [List.mem_filter] at hmem
    obtain ⟨hmem, hid⟩ := hmem
    rw [List.mem_map] at hmem
    obtain ⟨row, hrow, hrow'⟩ := hmem
    by_cases hc : (row.id == u.id) = true
    · refine ⟨row, hrow, by simpa using hc, ?_, ?_⟩
      · rw [← hrow', if_pos hc]
      · show e ∈ st.salaries.map
          (fun rr => if rr.id == u.id then PostgresStorage.applySalarySet u rr else rr)
        rw [List.mem_map]
        exact ⟨row, hrow, hrow'⟩
    · exfalso
      rw [if_neg hc] at hrow'
      rw [hrow'] at hc
      exact hc hid

theorem pgUpdateExpense_ok {st : PgState} {u : UpdateExpense} {r : PgExpense} {st' : PgState}
    (h : PostgresStorage.updateExpense st u = (.ok r, st')) :
    ∃ row ∈ st.expenses, row.id = u.id ∧ r = PostgresStorage.applyExpenseSet u row ∧
      r ∈ st'.expenses := by
  rw [PostgresStorage.updateExpense] at h
  cases hh : ((st.expenses.map
        (fun rr => if rr.id == u.id then PostgresStorage.applyExpenseSet u rr else rr)).filter
      (fun rr => rr.id == u.id)).head? with
  | none => rw [hh] at h; exact absurd h (by simp)
  | some e =>
    rw [hh] at h
    simp only [Prod.mk.injEq, Except.ok.injEq] at h
    obtain ⟨rfl, rfl⟩ := h
    have hmem := head?_mem' hh
    rw [List.mem_filter] at hmem
    obtain ⟨hmem, hid⟩ := hmem
    rw [List.mem_map] at hmem
    obtain ⟨row, hrow, hrow'⟩ := hmem
    by_cases hc : (row.id == u.id) = true
    · refine ⟨row, hrow, by simpa using hc, ?_, ?_⟩
      · rw [← hrow', if_pos hc]
      · show e ∈ st.expenses.map
          (fun rr => if rr.id == u.id then PostgresStorage.applyExpenseSet u rr else rr)
        rw [List.mem_map]
        exact ⟨row, hrow, hrow'⟩
    · exfalso
      rw [if_neg hc] at hrow'
      rw [hrow'] at hc
      exact hc hid

theorem pgUpdateSalary_notfound {st : PgState} {u : UpdateSalary}
    (h : ∀ rr ∈ st.salaries, rr.id ≠ u.id) :
    PostgresStorage.updateSalary st u =
      (.error ("Salary with id " ++ toString u.id ++ " not found"), st) := by
  have hmap : st.salaries.map
      (fun rr => if rr.id == u.id then PostgresStorage.applySalarySet u rr else rr) =
        st.salaries :=
    map_update_id PgSalary.id u.id _ h
  have hfil : st.salaries.filter (fun rr => rr.id == u.id) = [] := by
    rw [List.filter_eq_nil_iff]
    intro a ha
    simp [h a ha]
  rw [PostgresStorage.updateSalary, hmap, hfil]
  rfl

theorem pgUpdateExpense_notfound {st : PgState} {u : UpdateExpense}
    (h : ∀ rr ∈ st.expenses, rr.id ≠ u.id) :
    PostgresStorage.updateExpense st u =
      (.error ("Expense with id " ++ toString u.id ++ " not found"), st) := by
  have hmap : st.expenses.map
      (fun rr => if rr.id == u.id then PostgresStorage.applyExpenseSet u rr else rr) =
        st.expenses :=
    map_update_id PgExpense.id u.id _ h
  have hfil : st.expenses.filter (fun rr => rr.id == u.id) = [] := by
    rw [List.filter_eq_nil_iff]
    intro a ha
    simp [h a ha]
  rw [PostgresStorage.updateExpense, hmap, hfil]
  rfl

/-! ### Delete behaviour, per backend and category -/

theorem memDeleteSalary_spec (stm : MemState) (ida : Int) :
    ((InMemoryStorage.deleteSalary stm ida).1 = true ↔ ∃ s ∈ stm.salaries, s.id = ida) ∧
    ((InMemoryStorage.deleteSalary stm ida).1 = false →
      InMemoryStorage.deleteSalary stm ida = (false, stm)) ∧
    ((InMemoryStorage.deleteSalary stm ida).1 = true →
      ∃ l1 s l2, stm.salaries = l1 ++ s :: l2 ∧ s.id = ida ∧
        (InMemoryStorage.deleteSalary stm ida).2.salaries = l1 ++ l2) := by
  rw [InMemoryStorage.deleteSalary]
  cases hr : removeFirst (fun s => s.id == ida) stm.salaries with
  | none =>
    refine ⟨⟨fun h => absurd h (by simp), fun hex => ?_⟩, fun _ => rfl, fun h => absurd h (by simp)⟩
    obtain ⟨x, hx, hid⟩ := hex
    have := removeFirst_eq_none.mp hr x hx
    simp [hid] at this
  | some l =>
    obtain ⟨l1, x, l2, hl, _, hx, hl'⟩ := removeFirst_eq_some hr
    refine ⟨⟨fun _ => ⟨x, by rw [hl]; simp, by simpa using hx⟩, fun _ => rfl⟩,
      fun h => absurd h (by simp), fun _ => ⟨l1, x, l2, hl, by simpa using hx, hl'⟩⟩

theorem memDeleteExpense_spec (stm : MemState) (idb : Int) :
    ((InMemoryStorage.deleteExpense stm idb).1 = true ↔ ∃ e ∈ stm.expenses, e.id = idb) ∧
    ((InMemoryStorage.deleteExpense stm idb).1 = false →
      InMemoryStorage.deleteExpense stm idb = (false, stm)) ∧
    ((InMemoryStorage.deleteExpense stm idb).1 = true →
      ∃ l1 e l2, stm.expenses = l1 ++ e :: l2 ∧ e.id = idb ∧
        (InMemoryStorage.deleteExpense stm idb).2.expenses = l1 ++ l2) := by
  rw [InMemoryStorage.deleteExpense]
  cases hr : removeFirst (fun e => e.id == idb) stm.expenses with
  | none =>
    refine ⟨⟨fun h => absurd h (by simp), fun hex => ?_⟩, fun _ => rfl, fun h => absurd h (by simp)⟩
    obtain ⟨x, hx, hid⟩ := hex
    have := removeFirst_eq_none.mp hr x hx
    simp [hid] at this
  | some l =>
    obtain ⟨l1, x, l2, hl, _, hx, hl'⟩ := removeFirst_eq_some hr
    refine ⟨⟨fun _ => ⟨x, by rw [hl]; simp, by simpa using hx⟩, fun _ => rfl⟩,
      fun h => absurd h (by simp), fun _ => ⟨l1, x, l2, hl, by simpa using hx, hl'⟩⟩

theorem pgDeleteSalary_spec (pga : PgState) (idc : Int) :
    ((PostgresStorage.deleteSalary pga idc).1 = true ↔ ∃ rr ∈ pga.salaries, rr.id = idc) ∧
    ((PostgresStorage.deleteSalary pga idc).1 = false →
      PostgresStorage.deleteSalary pga idc = (false, pga)) ∧
    (∀ rr ∈ (PostgresStorage.deleteSalary pga idc).2.salaries, rr.id ≠ idc) ∧
    (∀ rr ∈ pga.salaries, rr.id ≠ idc →
      rr ∈ (PostgresStorage.deleteSalary pga idc).2.salaries) := by
  refine ⟨?_, ?_, ?_, ?_⟩
  · simp [PostgresStorage.deleteSalary, List.countP_pos_iff]
  · intro h
    simp only [PostgresStorage.deleteSalary] at h
    have hc := of_decide_eq_false h
    have hall := List.countP_eq_zero.mp (by omega : pga.salaries.countP
      (fun r => r.id == idc) = 0)
    have hfil : pga.salaries.filter (fun r => !(r.id == idc)) = pga.salaries := by
      rw [List.filter_eq_self]
      intro a ha
      simpa using hall a ha
    simp only [PostgresStorage.deleteSalary, hfil]
    rw [show pga.salaries.countP (fun r => r.id == idc) = 0 by omega]
    rfl
  · intro rr hrr
    have := (List.mem_filter.mp hrr).2
    simpa using this
  · intro rr hrr hne
    exact List.mem_filter.mpr ⟨hrr, by simpa using hne⟩

theorem pgDeleteExpense_spec (pgb : PgState) (idd : Int) :
    ((PostgresStorage.deleteExpense pgb idd).1 = true ↔ ∃ rr ∈ pgb.expenses, rr.id = idd) ∧
    ((PostgresStorage.deleteExpense pgb idd).1 = false →
      PostgresStorage.deleteExpense pgb idd = (false, pgb)) ∧
    (∀ rr ∈ (PostgresStorage.deleteExpense pgb idd).2.expenses, rr.id ≠ idd) ∧
    (∀ rr ∈ pgb.expenses, rr.id ≠ idd →
      rr ∈ (PostgresStorage.deleteExpense pgb idd).2.expenses) := by
  refine ⟨?_, ?_, ?_, ?_⟩
  · simp [PostgresStorage.deleteExpense, List.countP_pos_iff]
  · intro h
    simp only [PostgresStorage.deleteExpense] at h
    have hc := of_decide_eq_false h
    have hall := List.countP_eq_zero.mp (by omega : pgb.expenses.countP
      (fun r => r.id == idd) = 0)
    have hfil : pgb.expenses.filter (fun r => !(r.id == idd)) = pgb.expenses := by
      rw [List.filter_eq_self]
      intro a ha
      simpa using hall a ha
    simp only [PostgresStorage.deleteExpense, hfil]
    rw [show pgb.expenses.countP (fun r => r.id == idd) = 0 by omega]
    rfl
  · intro rr hrr
    have := (List.mem_filter.mp hrr).2
    simpa using this
  · intro rr hrr hne
    exact List.mem_filter.mpr ⟨hrr, by simpa using hne⟩

/-! ### Claim theorems -/

/-- Claim C1 counterexample: on the persistent backend, updating salary 1 with
only a month supplied changes the unspecified amount field: the stored amount
goes from 100 to NaN (`Number(undefined)`), so not all unspecified fields are
unchanged. -/
theorem update_subset_frame_counterexample :
    (PostgresStorage.updateSalary
        ⟨[⟨1, .fin 100, "Jan", 2024, none, none, 0⟩], [], 2, 1⟩
        ⟨1, none, some "Feb", none, none, none⟩).1 =
      .ok ⟨1, .nan, "Feb", 2024, none, none, 0⟩ ∧
    JsNumber.nan ≠ .fin 100 :=
  ⟨rfl, by decide⟩

/-- Claim C1 (amended): for updates supplying a subset of fields, on the
ephemeral backend (salary and expense) every unspecified field of the found
record is unchanged and a supplied numeric-looking-string amount is stored as
its numeric value; on the persistent backend the same holds for every field
except the amount column, which is written on every update — when supplied
(even as a numeric-looking string) it is stored as that number, but when
omitted it is overwritten with NaN — and for persistent expense updates the
creation-timestamp column is additionally rewritten whenever a new effective
date is supplied (cf. C8), remaining unchanged only when no date is supplied. -/
theorem update_subset_frame_amended
    (stm stm2 : MemState) (ida idb : Int) (da : UpdateSalaryData) (db : UpdateExpenseData)
    (r1 : Salary) (st1' : MemState) (r2 : Expense) (st2' : MemState)
    (pga pgb : PgState) (u : UpdateSalary) (v : UpdateExpense)
    (r3 : PgSalary) (st3' : PgState) (r4 : PgExpense) (st4' : PgState)
    (h1 : InMemoryStorage.updateSalary stm ida da = (some r1, st1'))
    (h2 : InMemoryStorage.updateExpense stm2 idb db = (some r2, st2'))
    (h3 : PostgresStorage.updateSalary pga u = (.ok r3, st3'))
    (h4 : PostgresStorage.updateExpense pgb v = (.ok r4, st4')) :
    (∃ s ∈ stm.salaries, s.id = ida ∧ r1.id = s.id ∧ r1.createdAt = s.createdAt ∧
      (da.month = none → r1.month = s.month) ∧
      (da.year = none → r1.year = s.year) ∧
      (da.notes = none → r1.notes = s.notes) ∧
      (da.date = none → r1.date = s.date) ∧
      (da.amount = none → r1.amount = s.amount) ∧
      (∀ txt q, da.amount = some (.str txt) → parseNum txt = some q → r1.amount = .fin q)) ∧
    (∃ e ∈ stm2.expenses, e.id = idb ∧ r2.id = e.id ∧ r2.createdAt = e.createdAt ∧
      (db.category = none → r2.category = e.category) ∧
      (db.description = none → r2.description = e.description) ∧
      (db.date = none → r2.date = e.date) ∧
      (db.amount = none → r2.amount = e.amount) ∧
      (∀ txt q, db.amount = some (.str txt) → parseNum txt = some q → r2.amount = .fin q)) ∧
    (∃ row ∈ pga.salaries, row.id = u.id ∧ r3.id = row.id ∧ r3.createdAt = row.createdAt ∧
      (u.month = none → r3.month = row.month) ∧
      (u.year = none → r3.year = row.year) ∧
      (u.notes = none → r3.notes = row.notes) ∧
      (u.date = none → r3.date = row.date) ∧
      (u.amount = none → r3.amount = .nan) ∧
      (∀ txt q, u.amount = some (.str txt) → parseNum txt = some q → r3.amount = .fin q)) ∧
    (∃ row ∈ pgb.expenses, row.id = v.id ∧ r4.id = row.id ∧
      (v.category = none → r4.category = row.category) ∧
      (v.description = none → r4.description = row.description) ∧
      (v.date = none → r4.date = row.date) ∧
      (v.date = none → r4.createdAt = row.createdAt) ∧
      (v.amount = none → r4.amount = .nan) ∧
      (∀ txt q, v.amount = some (.str txt) → parseNum txt = some q → r4.amount = .fin q)) := by
  obtain ⟨s, hs, hida, hr1, _⟩ := memUpdateSalary_ok h1
  obtain ⟨e, he, hidb, hr2, _⟩ := memUpdateExpense_ok h2
  obtain ⟨row3, hrow3, hid3, hr3, _⟩ := pgUpdateSalary_ok h3
  obtain ⟨row4, hrow4, hid4, hr4, _⟩ := pgUpdateExpense_ok h4
  subst hr1 hr2 hr3 hr4
  refine ⟨⟨s, hs, hida, rfl, rfl, ?_, ?_, ?_, ?_, ?_, ?_⟩,
    ⟨e, he, hidb, rfl, rfl, ?_, ?_, ?_, ?_, ?_⟩,
    ⟨row3, hrow3, hid3, rfl, rfl, ?_, ?_, ?_, ?_, ?_, ?_⟩,
    ⟨row4, hrow4, hid4, rfl, ?_, ?_, ?_, ?_, ?_, ?_⟩⟩ <;>
    first
      | (intro h
         simp [InMemoryStorage.mergeSalary, InMemoryStorage.mergeExpense,
           PostgresStorage.applySalarySet, PostgresStorage.applyExpenseSet, h, jsToNumberOpt])
      | (intro txt q hh hq
         simp [InMemoryStorage.mergeSalary, InMemoryStorage.mergeExpense,
           PostgresStorage.applySalarySet, PostgresStorage.applyExpenseSet, hh,
           jsToNumberOpt, jsToNumber, hq])

/-- Witness for C1 (amended) at concrete inputs: the four update success
hypotheses hold at explicit states, and in particular the persistent expense
update that omits the amount stores NaN. -/
theorem update_subset_frame_amended_witness :
    PostgresStorage.updateExpense ⟨[], [⟨1, .fin 5, "food", none, none, 7⟩], 1, 2⟩
        ⟨1, none, none, none, none⟩ =
      (.ok ⟨1, .nan, "food", none, none, 7⟩, ⟨[], [⟨1, .nan, "food", none, none, 7⟩], 1, 2⟩) ∧
    (⟨1, JsNumber.nan, "food", none, none, 7⟩ : PgExpense).amount = .nan := by
  have hyp4 : PostgresStorage.updateExpense ⟨[], [⟨1, .fin 5, "food", none, none, 7⟩], 1, 2⟩
      ⟨1, none, none, none, none⟩ =
        (.ok ⟨1, .nan, "food", none, none, 7⟩,
          ⟨[], [⟨1, .nan, "food", none, none, 7⟩], 1, 2⟩) := by rfl
  have h := update_subset_frame_amended
    ⟨[⟨1, .fin 100, "Jan", 2024, "", 3, 4⟩], [], [], 2, 1, 1⟩
    ⟨[], [⟨1, .fin 5, "food", "", .fin 3, 4⟩], [], 1, 2, 1⟩ 1 1
    ⟨some (.num (.fin 150)), none, none, none, none⟩
    ⟨some (.num (.fin 7)), none, none, none⟩
    ⟨1, .fin 150, "Jan", 2024, "", 3, 4⟩
    ⟨[⟨1, .fin 150, "Jan", 2024, "", 3, 4⟩], [], [], 2, 1, 1⟩
    ⟨1, .fin 7, "food", "", .fin 3, 4⟩
    ⟨[], [⟨1, .fin 7, "food", "", .fin 3, 4⟩], [], 1, 2, 1⟩
    ⟨[⟨1, .fin 100, "Jan", 2024, none, none, 0⟩], [], 2, 1⟩
    ⟨[], [⟨1, .fin 5, "food", none, none, 7⟩], 1, 2⟩
    ⟨1, some (.num (.fin 9)), none, none, none, none⟩ ⟨1, none, none, none, none⟩
    ⟨1, .fin 9, "Jan", 2024, none, none, 0⟩
    ⟨[⟨1, .fin 9, "Jan", 2024, none, none, 0⟩], [], 2, 1⟩
    ⟨1, .nan, "food", none, none, 7⟩
    ⟨[], [⟨1, .nan, "food", none, none, 7⟩], 1, 2⟩
    (by rfl) (by rfl) (by rfl) hyp4
  obtain ⟨row, hrow, hid, hrid, hcat, hdesc, hdate, hcre, hnan, hstr⟩ := h.2.2.2
  exact ⟨hyp4, hnan rfl⟩

/-- Claim C3: for every update call targeting an identifier with no matching
record, the persistent backend throws an error with a descriptive message
(modelled as the `Except.error` carrying the id-naming message) and leaves the
table unchanged, while the ephemeral backend returns a null/absent result
(`none`) with its state unchanged; this holds for both the salary and expense
categories. -/
theorem update_missing_identifier (stm stm2 : MemState) (ida idb : Int)
    (da : UpdateSalaryData) (db : UpdateExpenseData)
    (pga pgb : PgState) (u : UpdateSalary) (v : UpdateExpense)
    (h1 : ∀ s ∈ stm.salaries, s.id ≠ ida)
    (h2 : ∀ e ∈ stm2.expenses, e.id ≠ idb)
    (h3 : ∀ rr ∈ pga.salaries, rr.id ≠ u.id)
    (h4 : ∀ rr ∈ pgb.expenses, rr.id ≠ v.id) :
    InMemoryStorage.updateSalary stm ida da = (none, stm) ∧
    InMemoryStorage.updateExpense stm2 idb db = (none, stm2) ∧
    PostgresStorage.updateSalary pga u =
      (.error ("Salary with id " ++ toString u.id ++ " not found"), pga) ∧
    PostgresStorage.updateExpense pgb v =
      (.error ("Expense with id " ++ toString v.id ++ " not found"), pgb) :=
  ⟨memUpdateSalary_notfound h1, memUpdateExpense_notfound h2,
    pgUpdateSalary_notfound h3, pgUpdateExpense_notfound h4⟩

/-- Witness for C3 at concrete inputs: updating a missing id 2 in a one-salary
ephemeral store yields `none` and updating id 5 in an empty persistent salary
table yields the descriptive error. -/
theorem update_missing_identifier_witness :
    InMemoryStorage.updateSalary ⟨[⟨1, .fin 100, "Jan", 2024, "", 0, 0⟩], [], [], 2, 1, 1⟩ 2
        ⟨none, none, none, none, none⟩ =
      (none, ⟨[⟨1, .fin 100, "Jan", 2024, "", 0, 0⟩], [], [], 2, 1, 1⟩) ∧
    PostgresStorage.updateSalary ⟨[], [], 1, 1⟩ ⟨5, none, none, none, none, none⟩ =
      (.error ("Salary with id " ++ toString (5 : Int) ++ " not found"), ⟨[], [], 1, 1⟩) := by
  have h := update_missing_identifier
    ⟨[⟨1, .fin 100, "Jan", 2024, "", 0, 0⟩], [], [], 2, 1, 1⟩ MemState.init 2 0
    ⟨none, none, none, none, none⟩ ⟨none, none, none, none⟩
    ⟨[], [], 1, 1⟩ ⟨[], [], 1, 1⟩ ⟨5, none, none, none, none, none⟩
    ⟨5, none, none, none, none⟩
    (by decide) (by decide) (by decide) (by decide)
  exact ⟨h.1, h.2.2.1⟩

/-- Claim C4 counterexample: on the ephemeral backend, `createExpense` with a
supplied effective date 5 at clock 99 stores creation timestamp 99, not the
supplied effective date, contradicting the claim's "holds per backend". -/
theorem creation_timestamp_counterexample :
    (InMemoryStorage.createExpense MemState.init
        ⟨some (.num (.fin 10)), "food", none, some 5⟩ 99).1.createdAt = 99 ∧
      (99 : Int) ≠ 5 :=
  ⟨rfl, by decide⟩

/-- Claim C4 (amended): the persistent backend gives an added expense a
creation timestamp equal to the supplied effective date when present and the
current time otherwise, and gives an added salary the current time
unconditionally; the ephemeral backend sets the creation timestamp to the
current time unconditionally for both salary and expense adds. -/
theorem creation_timestamp_policy (pga pgb : PgState) (ie : PgInsertExpense)
    (isal : PgInsertSalary) (stm stm2 stm3 stm4 : MemState) (de : InsertExpense)
    (ds : InsertSalary) (n1 n2 n3 n4 n5 n6 cy : Int) :
    (PostgresStorage.addExpense pga ie n1).1.createdAt = ie.date.getD n1 ∧
    (PostgresStorage.addSalary pgb isal n2).1.createdAt = n2 ∧
    (InMemoryStorage.createExpense stm de n3).1.createdAt = n3 ∧
    (InMemoryStorage.addExpense stm2 de n4).1.createdAt = n4 ∧
    (InMemoryStorage.createSalary stm3 ds n5 cy).1.createdAt = n5 ∧
    (InMemoryStorage.addSalary stm4 ds n6 cy).1.createdAt = n6 := by
  refine ⟨?_, rfl, rfl, rfl, rfl, rfl⟩
  cases hd : ie.date <;> simp [PostgresStorage.addExpense, hd]

/-- Claim C5 counterexample: on the ephemeral backend, creating an expense with
the amount omitted stores NaN, not the claimed type-appropriate default 0. -/
theorem create_defaults_counterexample :
    (InMemoryStorage.createExpense MemState.init ⟨none, "food", none, none⟩ 50).1.amount =
      .nan ∧ JsNumber.nan ≠ .fin 0 :=
  ⟨rfl, by decide⟩

/-- Claim C5 (amended): on the ephemeral backend, salary creation fills every
omitted field with the claimed default (amount 0, month empty string, year the
current year, notes empty string, date the current time); expense creation
defaults only the description to the empty string, while an omitted amount is
stored as NaN and an omitted date as an invalid date (NaN time value). -/
theorem create_defaults_amended (stm stm2 : MemState) (ds : InsertSalary)
    (de : InsertExpense) (now cy n2 : Int) :
    ((ds.amount = none → (InMemoryStorage.createSalary stm ds now cy).1.amount = .fin 0) ∧
     (ds.month = none → (InMemoryStorage.createSalary stm ds now cy).1.month = "") ∧
     (ds.year = none → (InMemoryStorage.createSalary stm ds now cy).1.year = cy) ∧
     (ds.notes = none → (InMemoryStorage.createSalary stm ds now cy).1.notes = "") ∧
     (ds.date = none → (InMemoryStorage.createSalary stm ds now cy).1.date = now)) ∧
    ((de.description = none → (InMemoryStorage.createExpense stm2 de n2).1.description = "") ∧
     (de.amount = none → (InMemoryStorage.createExpense stm2 de n2).1.amount = .nan) ∧
     (de.date = none → (InMemoryStorage.createExpense stm2 de n2).1.date = .nan)) := by
  refine ⟨⟨fun h => ?_, fun h => ?_, fun h => ?_, fun h => ?_, fun h => ?_⟩,
    fun h => ?_, fun h => ?_, fun h => ?_⟩ <;>
    simp [InMemoryStorage.createSalary, InMemoryStorage.createExpense, h,
      amountOrZero, jsToNumber, jsToNumberOpt, intOrElse]

/-- Witness for C5 (amended) at concrete inputs: a fully-omitted salary input
gets amount 0, and an expense input without an amount gets NaN. -/
theorem create_defaults_amended_witness :
    (InMemoryStorage.createSalary MemState.init ⟨none, none, none, none, none⟩ 7 2024).1.amount
        = .fin 0 ∧
    (InMemoryStorage.createExpense MemState.init ⟨none, "x", none, none⟩ 7).1.amount = .nan := by
  have h := create_defaults_amended MemState.init MemState.init
    ⟨none, none, none, none, none⟩ ⟨none, "x", none, none⟩ 7 2024 7
  exact ⟨h.1.1 rfl, h.2.2.1 rfl⟩

/-- Claim C8: for every expense update on the persistent backend that finds its
row, the stored (and returned) creation timestamp is recomputed from the
supplied effective date when one is present in the update, and is left at the
prior stored value when no new effective date is supplied. -/
theorem expense_update_created_at (st : PgState) (u : UpdateExpense)
    (r : PgExpense) (st' : PgState)
    (h : PostgresStorage.updateExpense st u = (.ok r, st')) :
    ∃ row ∈ st.expenses, row.id = u.id ∧
      r.createdAt = u.date.getD row.createdAt ∧ r ∈ st'.expenses := by
  obtain ⟨row, hrow, hid, hr, hmem⟩ := pgUpdateExpense_ok h
  refine ⟨row, hrow, hid, ?_, hmem⟩
  rw [hr]
  cases hd : u.date <;> simp [PostgresStorage.applyExpenseSet, hd]

/-- Witness for C8 at a concrete input: updating expense 1 with a new effective
date 42 stores creation timestamp 42. -/
theorem expense_update_created_at_witness :
    ∃ row ∈ ([⟨1, .fin 5, "food", none, none, 7⟩] : List PgExpense), row.id = (1 : Int) ∧
      (⟨1, .nan, "food", none, some 42, 42⟩ : PgExpense).createdAt =
        (some (42 : Int)).getD row.createdAt ∧
      (⟨1, .nan, "food", none, some 42, 42⟩ : PgExpense) ∈
        (⟨[], [⟨1, .nan, "food", none, some 42, 42⟩], 1, 2⟩ : PgState).expenses :=
  expense_update_created_at ⟨[], [⟨1, .fin 5, "food", none, none, 7⟩], 1, 2⟩
    ⟨1, none, none, none, some 42⟩ ⟨1, .nan, "food", none, some 42, 42⟩
    ⟨[], [⟨1, .nan, "food", none, some 42, 42⟩], 1, 2⟩ (by rfl)

/-- Claim C9: every regional-expense operation (list, create, delete) on the
persistent backend fails unconditionally with the "not implemented" error, for
every input and regardless of stored state. -/
theorem indian_ops_not_implemented (st st2 st3 : PgState) (d : PgInsertExpense)
    (id : Int) :
    PostgresStorage.getIndianExpenses st = .error ("Method not implemented.") ∧
    PostgresStorage.createIndianExpense st2 d = .error ("Method not implemented.") ∧
    PostgresStorage.deleteIndianExpense st3 id = .error ("Method not implemented.") :=
  ⟨rfl, rfl, rfl⟩

/-- Claim C2: for every identifier, delete returns a boolean that is true iff
a record with that identifier existed (and in the true case a matching record
is removed — the first match for the ephemeral backend, every match for the
persistent backend — with all other records kept); deleting a missing
identifier returns false and leaves the state unchanged, and the operations
never throw (they are total functions into a plain boolean); for the salary
and expense deletes of both backends. -/
theorem delete_existence_boolean (stm stm2 : MemState) (pga pgb : PgState)
    (ida idb idc idd : Int) :
    (((InMemoryStorage.deleteSalary stm ida).1 = true ↔ ∃ s ∈ stm.salaries, s.id = ida) ∧
     ((InMemoryStorage.deleteSalary stm ida).1 = false →
       InMemoryStorage.deleteSalary stm ida = (false, stm)) ∧
     ((InMemoryStorage.deleteSalary stm ida).1 = true →
       ∃ l1 s l2, stm.salaries = l1 ++ s :: l2 ∧ s.id = ida ∧
         (InMemoryStorage.deleteSalary stm ida).2.salaries = l1 ++ l2)) ∧
    (((InMemoryStorage.deleteExpense stm2 idb).1 = true ↔ ∃ e ∈ stm2.expenses, e.id = idb) ∧
     ((InMemoryStorage.deleteExpense stm2 idb).1 = false →
       InMemoryStorage.deleteExpense stm2 idb = (false, stm2)) ∧
     ((InMemoryStorage.deleteExpense stm2 idb).1 = true →
       ∃ l1 e l2, stm2.expenses = l1 ++ e :: l2 ∧ e.id = idb ∧
         (InMemoryStorage.deleteExpense stm2 idb).2.expenses = l1 ++ l2)) ∧
    (((PostgresStorage.deleteSalary pga idc).1 = true ↔ ∃ rr ∈ pga.salaries, rr.id = idc) ∧
     ((PostgresStorage.deleteSalary pga idc).1 = false →
       PostgresStorage.deleteSalary pga idc = (false, pga)) ∧
     (∀ rr ∈ (PostgresStorage.deleteSalary pga idc).2.salaries, rr.id ≠ idc) ∧
     (∀ rr ∈ pga.salaries, rr.id ≠ idc →
       rr ∈ (PostgresStorage.deleteSalary pga idc).2.salaries)) ∧
    (((PostgresStorage.deleteExpense pgb idd).1 = true ↔ ∃ rr ∈ pgb.expenses, rr.id = idd) ∧
     ((PostgresStorage.deleteExpense pgb idd).1 = false →
       PostgresStorage.deleteExpense pgb idd = (false, pgb)) ∧
     (∀ rr ∈ (PostgresStorage.deleteExpense pgb idd).2.expenses, rr.id ≠ idd) ∧
     (∀ rr ∈ pgb.expenses, rr.id ≠ idd →
       rr ∈ (PostgresStorage.deleteExpense pgb idd).2.expenses)) :=
  ⟨memDeleteSalary_spec stm ida, memDeleteExpense_spec stm2 idb,
    pgDeleteSalary_spec pga idc, pgDeleteExpense_spec pgb idd⟩

/-- Witness for C2 at concrete inputs: deleting the present id 1 from a
one-salary ephemeral store reports true, and deleting id 9 from an empty
persistent salary table reports false. -/
theorem delete_existence_boolean_witness :
    (InMemoryStorage.deleteSalary ⟨[⟨1, .fin 100, "Jan", 2024, "", 0, 0⟩], [], [], 2, 1, 1⟩ 1).1
        = true ∧
    (PostgresStorage.deleteSalary ⟨[], [], 1, 1⟩ 9).1 = false := by
  have h := delete_existence_boolean ⟨[⟨1, .fin 100, "Jan", 2024, "", 0, 0⟩], [], [], 2, 1, 1⟩
    MemState.init ⟨[], [], 1, 1⟩ ⟨[], [], 1, 1⟩ 1 0 9 0
  refine ⟨h.1.1.mpr ⟨⟨1, .fin 100, "Jan", 2024, "", 0, 0⟩, by simp, rfl⟩, ?_⟩
  cases hb : (PostgresStorage.deleteSalary ⟨[], [], 1, 1⟩ 9).1 with
  | false => rfl
  | true =>
    obtain ⟨rr, hrr, _⟩ := h.2.2.1.1.mp hb
    simp at hrr

/-- Claim C6: provided the wall clock is non-decreasing across the calls (the
physical clock assumption), after any sequence of add, update and delete
operations the ephemeral backend's collections list in creation-time ascending
order regardless of the order of insertions and updates, and the persistent
backend's ordered selects return creation-time-sorted rows for every table
state. -/
theorem list_ordered_by_creation (t0 : Int) (ops : List MemOp) (pga pgb : PgState)
    (h : timesMonoB t0 ops = true) :
    (InMemoryStorage.getSalaries (runOps MemState.init ops)).Pairwise
        (fun a b => a.createdAt ≤ b.createdAt) ∧
    (InMemoryStorage.getExpenses (runOps MemState.init ops)).Pairwise
        (fun a b => a.createdAt ≤ b.createdAt) ∧
    (InMemoryStorage.getIndianExpenses (runOps MemState.init ops)).Pairwise
        (fun a b => a.createdAt ≤ b.createdAt) ∧
    (PostgresStorage.getSalaries pga).Pairwise pgSalaryByCreatedAt ∧
    (PostgresStorage.getExpenses pgb).Pairwise pgExpenseByCreatedAt := by
  have hinit : memInv t0 MemState.init := by
    refine ⟨⟨List.Pairwise.nil, ?_⟩, ⟨List.Pairwise.nil, ?_⟩, ⟨List.Pairwise.nil, ?_⟩⟩ <;>
      · intro z hz
        simp [MemState.init] at hz
  obtain ⟨t', hinv⟩ := memInv_runOps ops MemState.init t0 hinit h
  exact ⟨hinv.1.1, hinv.2.1.1, hinv.2.2.1,
    List.sorted_insertionSort pgSalaryByCreatedAt pga.salaries,
    List.sorted_insertionSort pgExpenseByCreatedAt pgb.expenses⟩

/-- Witness for C6 at a concrete operation sequence with non-decreasing clock
values. -/
theorem list_ordered_by_creation_witness :
    timesMonoB 0 [MemOp.createSalaryOp ⟨none, none, none, none, none⟩ 10 2024,
      MemOp.createExpenseOp ⟨none, "x", none, none⟩ 20] = true ∧
    (InMemoryStorage.getSalaries (runOps MemState.init
        [MemOp.createSalaryOp ⟨none, none, none, none, none⟩ 10 2024,
         MemOp.createExpenseOp ⟨none, "x", none, none⟩ 20])).Pairwise
      (fun a b => a.createdAt ≤ b.createdAt) := by
  have hm : timesMonoB 0 [MemOp.createSalaryOp ⟨none, none, none, none, none⟩ 10 2024,
      MemOp.createExpenseOp ⟨none, "x", none, none⟩ 20] = true := by decide
  exact ⟨hm, (list_ordered_by_creation 0
    [MemOp.createSalaryOp ⟨none, none, none, none, none⟩ 10 2024,
     MemOp.createExpenseOp ⟨none, "x", none, none⟩ 20] ⟨[], [], 1, 1⟩ ⟨[], [], 1, 1⟩ hm).1⟩

/-- Claim C7: on the ephemeral backend, each category's returned identifiers
along any operation sequence are exactly the consecutive run 1, 2, ... of
length equal to that category's own number of creations — hence unique across
the lifetime of the collection, strictly increasing with each addition,
starting from 1, and independent of the other two categories' counters. -/
theorem create_ids_unique_increasing (ops : List MemOp) :
    salaryIdsFrom MemState.init ops = expectedIds 1 (ops.countP isSalaryCreate) ∧
    expenseIdsFrom MemState.init ops = expectedIds 1 (ops.countP isExpenseCreate) ∧
    indianIdsFrom MemState.init ops = expectedIds 1 (ops.countP isIndianCreate) ∧
    (salaryIdsFrom MemState.init ops).Pairwise (fun a b => a < b) ∧
    (expenseIdsFrom MemState.init ops).Pairwise (fun a b => a < b) ∧
    (indianIdsFrom MemState.init ops).Pairwise (fun a b => a < b) ∧
    (∀ n : Nat, 0 < n → (expectedIds 1 n).head? = some 1) := by
  have h1 := salaryIdsFrom_eq ops MemState.init
  have h2 := expenseIdsFrom_eq ops MemState.init
  have h3 := indianIdsFrom_eq ops MemState.init
  refine ⟨h1, h2, h3, ?_, ?_, ?_, fun n hn => expectedIds_head n 1 hn⟩
  · rw [h1]; exact expectedIds_pairwise _ _
  · rw [h2]; exact expectedIds_pairwise _ _
  · rw [h3]; exact expectedIds_pairwise _ _

/-- Witness for C7 at a concrete operation sequence: two salary creations
return ids 1 and 2. -/
theorem create_ids_unique_increasing_witness :
    salaryIdsFrom MemState.init
        [MemOp.createSalaryOp ⟨none, none, none, none, none⟩ 1 2024,
         MemOp.addSalaryOp ⟨none, none, none, none, none⟩ 2 2024] = [1, 2] ∧
    (expectedIds 1 2).head? = some 1 := by
  have h := create_ids_unique_increasing
    [MemOp.createSalaryOp ⟨none, none, none, none, none⟩ 1 2024,
     MemOp.addSalaryOp ⟨none, none, none, none, none⟩ 2 2024]
  exact ⟨by simpa using h.1, h.2.2.2.2.2.2 2 (by decide)⟩

/-- Claim C10: on the ephemeral backend, `createSalary` and `addSalary` agree
on every input and every prior state (the source duplicates the body verbatim),
and `addExpense` returns exactly the result of `createExpense` on the same
input (the source delegates). -/
theorem create_add_equivalence (st st2 : MemState) (ds : InsertSalary)
    (de : InsertExpense) (now currentYear n2 : Int) :
    InMemoryStorage.createSalary st ds now currentYear =
      InMemoryStorage.addSalary st ds now currentYear ∧
    InMemoryStorage.addExpense st2 de n2 = InMemoryStorage.createExpense st2 de n2 :=
  ⟨rfl, rfl⟩

end FTPP
